import Mathlib

/-!
Shallow embedding of the billiard simulator in src/modeling-1/main.py.
Each structure mirrors one Python class and each definition mirrors one
method; machine floats are modelled by real numbers.
-/

/-- State of one billiard ball (class BilliardBall): position, velocity,
radius, friction coefficient mu, rest flag and the recorded trajectory.
The constructor of the Python class sets trajectory to the singleton of
the initial position and stopped to False; mu is the fixed 0.2. -/
structure Ball where
  x : ℝ
  y : ℝ
  vx : ℝ
  vy : ℝ
  radius : ℝ
  mu : ℝ
  stopped : Bool
  trajectory : List (ℝ × ℝ)

/-- BilliardBall.update_position: no-op when stopped, else advance the
position by velocity times dt and append the new position. -/
noncomputable def updatePosition (dt : ℝ) (b : Ball) : Ball :=
  if b.stopped then b
  else
    { b with
      x := b.x + b.vx * dt
      y := b.y + b.vy * dt
      trajectory := b.trajectory ++ [(b.x + b.vx * dt, b.y + b.vy * dt)] }

/-- BilliardBall.apply_friction: no-op when stopped; zero the velocity and
set the rest flag when the speed is below 0.02; otherwise scale the
velocity by exp (-mu * dt). -/
noncomputable def applyFriction (dt : ℝ) (b : Ball) : Ball :=
  if b.stopped then b
  else
    let speed := Real.sqrt (b.vx ^ 2 + b.vy ^ 2)
    if speed < 0.02 then { b with vx := 0, vy := 0, stopped := true }
    else
      let factor := Real.exp (-b.mu * dt)
      { b with vx := b.vx * factor, vy := b.vy * factor }

/-- BilliardBall.check_wall_collision: no-op when stopped; clamp each axis
to the playable band and force the velocity component outward (abs at the
lower wall, minus abs at the upper wall). -/
noncomputable def checkWallCollision (w h : ℝ) (b : Ball) : Ball :=
  if b.stopped then b
  else
    let b1 :=
      if b.x - b.radius ≤ 0 then { b with x := b.radius, vx := |b.vx| }
      else if b.x + b.radius ≥ w then { b with x := w - b.radius, vx := -|b.vx| }
      else b
    if b1.y - b1.radius ≤ 0 then { b1 with y := b1.radius, vy := |b1.vy| }
    else if b1.y + b1.radius ≥ h then { b1 with y := h - b1.radius, vy := -|b1.vy| }
    else b1

/-- BilliardTable collision resolution for one unordered pair (the body of
the inner loop of handle_ball_collisions): when the center distance is
below twice the radius of the first ball, swap the normal velocity
components and, when the distance is positive, push the balls half the
overlap apart along the normal; the degenerate zero-distance case uses the
fixed normal (1, 0) and gets no positional correction. -/
noncomputable def resolvePair (b1 b2 : Ball) : Ball × Ball :=
  let dx := b2.x - b1.x
  let dy := b2.y - b1.y
  let distance := Real.sqrt (dx ^ 2 + dy ^ 2)
  if distance < 2 * b1.radius then
    let n : ℝ × ℝ := if 0 < distance then (dx / distance, dy / distance) else (1, 0)
    let nx := n.1
    let ny := n.2
    let v1n := b1.vx * nx + b1.vy * ny
    let v2n := b2.vx * nx + b2.vy * ny
    let c1 := { b1 with vx := b1.vx + (v2n - v1n) * nx, vy := b1.vy + (v2n - v1n) * ny }
    let c2 := { b2 with vx := b2.vx + (v1n - v2n) * nx, vy := b2.vy + (v1n - v2n) * ny }
    let overlap := 2 * b1.radius - distance
    if 0 < distance then
      ({ c1 with x := c1.x - overlap * nx * 0.5, y := c1.y - overlap * ny * 0.5 },
       { c2 with x := c2.x + overlap * nx * 0.5, y := c2.y + overlap * ny * 0.5 })
    else (c1, c2)
  else (b1, b2)

/-- Inner loop of handle_ball_collisions for a fixed first index: walk the
suffix of balls after it in order, skip suffix balls that are stopped, and
otherwise resolve the pair, threading the updated first ball through the
remaining iterations (the Python code mutates balls[i] in place, so later
pairs in the same row see the updated ball). -/
noncomputable def innerLoop (bi : Ball) : List Ball → Ball × List Ball
  | [] => (bi, [])
  | bj :: tl =>
    if bj.stopped then
      let p := innerLoop bi tl
      (p.1, bj :: p.2)
    else
      let q := resolvePair bi bj
      let p := innerLoop q.1 tl
      (p.1, q.2 :: p.2)

/-- Outer loop of handle_ball_collisions, with an explicit counter of the
remaining outer iterations (the loop runs once per index i; innerLoop
preserves the length of the suffix, so the counter always equals the
length of the remaining list). A ball that is stopped when its row starts
is skipped unchanged. -/
noncomputable def collisionPassAux : ℕ → List Ball → List Ball
  | 0, balls => balls
  | _ + 1, [] => []
  | fuel + 1, b :: rest =>
    if b.stopped then b :: collisionPassAux fuel rest
    else
      let p := innerLoop b rest
      p.1 :: collisionPassAux fuel p.2

/-- BilliardTable.handle_ball_collisions: one full pass over all unordered
index pairs in increasing order. -/
noncomputable def collisionPass (balls : List Ball) : List Ball :=
  collisionPassAux balls.length balls

/-- Per-ball phase of BilliardTable.update: integrate the position, apply
friction, then contain within the walls. -/
noncomputable def stepBall (dt w h : ℝ) (b : Ball) : Ball :=
  checkWallCollision w h (applyFriction dt (updatePosition dt b))

/-- BilliardTable.update: advance every ball individually in order, then
run one collision-resolution pass over the whole set. -/
noncomputable def tableUpdate (dt w h : ℝ) (balls : List Ball) : List Ball :=
  collisionPass (balls.map (stepBall dt w h))

/-- BilliardTable.all_balls_stopped. -/
def allStopped (balls : List Ball) : Bool :=
  balls.all (fun b => b.stopped)

/-- State of the animation driver (class BilliardAnimation): the table
contents, the elapsed time, and the running flag. -/
structure DriverState where
  balls : List Ball
  time : ℝ
  running : Bool

/-- BilliardAnimation construction: elapsed time 0, running flag True. -/
def initDriver (balls : List Ball) : DriverState :=
  { balls := balls, time := 0, running := true }

/-- BilliardAnimation.update, simulation content only: when not running,
mutate nothing; otherwise advance the table by the fixed dt of 0.05,
advance the elapsed time, and clear the running flag when every ball has
now stopped. -/
noncomputable def runStep (w h : ℝ) (s : DriverState) : DriverState :=
  if s.running then
    let balls1 := tableUpdate 0.05 w h s.balls
    { balls := balls1
      time := s.time + 0.05
      running := if allStopped balls1 then false else s.running }
  else s

/-- Center distance of two balls, exactly the expression computed at the
top of the pair resolution. -/
noncomputable def ballDist (b1 b2 : Ball) : ℝ :=
  Real.sqrt ((b2.x - b1.x) ^ 2 + (b2.y - b1.y) ^ 2)

/-- Speed of a ball, the expression computed inside apply_friction. -/
noncomputable def speed (b : Ball) : ℝ :=
  Real.sqrt (b.vx ^ 2 + b.vy ^ 2)

/-- Squared speed of one ball, the kinetic-energy proxy of the claims. -/
def ballEnergy (b : Ball) : ℝ :=
  b.vx ^ 2 + b.vy ^ 2

/-- Total kinetic-energy proxy of a collection of balls. -/
def energy (balls : List Ball) : ℝ :=
  (balls.map ballEnergy).sum

/-- First component of the collision normal of a pair with positive
center distance. -/
noncomputable def normalX (b1 b2 : Ball) : ℝ :=
  (b2.x - b1.x) / ballDist b1 b2

/-- Second component of the collision normal of a pair with positive
center distance. -/
noncomputable def normalY (b1 b2 : Ball) : ℝ :=
  (b2.y - b1.y) / ballDist b1 b2

/-- Signed component of the velocity of a ball along a direction. -/
def normalComp (b : Ball) (nx ny : ℝ) : ℝ :=
  b.vx * nx + b.vy * ny

/-- Signed component of the velocity of a ball along the tangent obtained
by rotating the direction a quarter turn. -/
def tangComp (b : Ball) (nx ny : ℝ) : ℝ :=
  b.vx * (-ny) + b.vy * nx

theorem sqrt_eval (a b : ℝ) (hb : 0 ≤ b) (h : b ^ 2 = a) : Real.sqrt a = b := by
  rw [← h]
  exact Real.sqrt_sq hb

/-- Concrete stopped ball resting outside the table, reachable because a
slow ball can drift past a wall and be stopped by friction before the
wall check of the same step runs. -/
noncomputable def c2stopBall : Ball :=
  { x := -5, y := 3, vx := 0, vy := 0, radius := 0.3, mu := 0.2,
    stopped := true, trajectory := [] }

/-- C2 counterexample: check_wall_collision is a no-op on a ball whose
rest flag is set, so a stopped ball that lies outside the playable band
stays outside it, violating the containment claim as stated for every
particle. -/
theorem wall_containment_fails_for_stopped_ball :
    ¬ (c2stopBall.radius ≤ (checkWallCollision 10 6 c2stopBall).x) := by
  simp only [checkWallCollision, c2stopBall]
  norm_num

/-- C2 amended: for a particle that is not at rest, after
check_wall_collision with width and height at least twice the radius, the
position lies in the band [radius, width - radius] times
[radius, height - radius]. -/
theorem wall_containment_after_clamp (b : Ball) (w h : ℝ)
    (hb : b.stopped = false) (hw : 2 * b.radius ≤ w) (hh : 2 * b.radius ≤ h) :
    b.radius ≤ (checkWallCollision w h b).x ∧
      (checkWallCollision w h b).x ≤ w - b.radius ∧
      b.radius ≤ (checkWallCollision w h b).y ∧
      (checkWallCollision w h b).y ≤ h - b.radius := by
  simp only [checkWallCollision, hb, Bool.false_eq_true, if_false]
  split_ifs <;> refine ⟨?_, ?_, ?_, ?_⟩ <;> simp_all <;> linarith

/-- Concrete moving ball beyond the left wall, used to instantiate the
amended containment theorem. -/
noncomputable def c2moveBall : Ball :=
  { x := -1, y := 3, vx := -0.5, vy := 0, radius := 0.3, mu := 0.2,
    stopped := false, trajectory := [] }

/-- Witness for the amended containment theorem at a concrete input. -/
theorem wall_containment_after_clamp_witness :
    c2moveBall.radius ≤ (checkWallCollision 10 6 c2moveBall).x ∧
      (checkWallCollision 10 6 c2moveBall).x ≤ 10 - c2moveBall.radius ∧
      c2moveBall.radius ≤ (checkWallCollision 10 6 c2moveBall).y ∧
      (checkWallCollision 10 6 c2moveBall).y ≤ 6 - c2moveBall.radius :=
  wall_containment_after_clamp c2moveBall 10 6 rfl
    (by simp [c2moveBall]; norm_num) (by simp [c2moveBall]; norm_num)

/-- C4: for a particle not yet at rest, any dt at least 0, and the
nonnegative friction coefficient the data model prescribes, the speed
after apply_friction is at most the speed before it. -/
theorem friction_never_increases_speed (b : Ball) (dt : ℝ)
    (hs : b.stopped = false) (hdt : 0 ≤ dt) (hmu : 0 ≤ b.mu) :
    speed (applyFriction dt b) ≤ speed b := by
  simp only [applyFriction, hs, Bool.false_eq_true, if_false]
  by_cases hlt : Real.sqrt (b.vx ^ 2 + b.vy ^ 2) < 0.02
  · simp only [hlt, if_true, speed]
    simp
  · simp only [hlt, if_false, speed]
    have hfac : Real.exp (-b.mu * dt) ≤ 1 := by
      rw [← Real.exp_zero]
      apply Real.exp_le_exp.mpr
      nlinarith
    have hfac0 : 0 ≤ Real.exp (-b.mu * dt) := (Real.exp_pos _).le
    have hsq : (b.vx * Real.exp (-b.mu * dt)) ^ 2 + (b.vy * Real.exp (-b.mu * dt)) ^ 2
        = (b.vx ^ 2 + b.vy ^ 2) * (Real.exp (-b.mu * dt)) ^ 2 := by ring
    rw [hsq, Real.sqrt_mul (by positivity), Real.sqrt_sq hfac0]
    have := Real.sqrt_nonneg (b.vx ^ 2 + b.vy ^ 2)
    nlinarith

/-- Concrete moving ball used to instantiate the friction theorem. -/
noncomputable def c4ball : Ball :=
  { x := 5, y := 3, vx := 1, vy := 0.5, radius := 0.3, mu := 0.2,
    stopped := false, trajectory := [] }

/-- Witness for the friction monotonicity theorem at a concrete input. -/
theorem friction_never_increases_speed_witness :
    speed (applyFriction 1 c4ball) ≤ speed c4ball :=
  friction_never_increases_speed c4ball 1 rfl (by norm_num)
    (by simp [c4ball]; norm_num)

/-- C8: the running flag starts true; a driver state whose running flag
is cleared is a fixed point of run_step (no simulation state mutates);
and one run_step ends with the flag cleared exactly when it was already
cleared or the table it just advanced reports every ball at rest. -/
theorem driver_running_flag_lifecycle (w h : ℝ) (balls : List Ball)
    (s : DriverState) :
    (initDriver balls).running = true ∧
      runStep w h { s with running := false } = { s with running := false } ∧
      ((runStep w h s).running = false ↔
        (s.running = false ∨ allStopped (tableUpdate 0.05 w h s.balls) = true)) := by
  refine ⟨rfl, ?_, ?_⟩
  · simp [runStep]
  · by_cases hr : s.running
    · by_cases ha : allStopped (tableUpdate 0.05 w h s.balls)
      · simp [runStep, hr, ha]
      · simp [runStep, hr, ha]
    · simp only [Bool.not_eq_true] at hr
      simp [runStep, hr]

theorem resolvePair_stopped_fst (b1 b2 : Ball) :
    (resolvePair b1 b2).1.stopped = b1.stopped := by
  simp only [resolvePair]
  split_ifs <;> rfl

theorem resolvePair_stopped_snd (b1 b2 : Ball) :
    (resolvePair b1 b2).2.stopped = b2.stopped := by
  simp only [resolvePair]
  split_ifs <;> rfl

theorem collisionPass_two (b1 b2 : Ball)
    (h1 : b1.stopped = false) (h2 : b2.stopped = false) :
    collisionPass [b1, b2] = [(resolvePair b1 b2).1, (resolvePair b1 b2).2] := by
  have hs2 : (resolvePair b1 b2).2.stopped = false := by
    rw [resolvePair_stopped_snd]
    exact h2
  simp [collisionPass, collisionPassAux, innerLoop, h1, h2, hs2]

theorem normal_unit (b1 b2 : Ball) (hd : 0 < ballDist b1 b2) :
    normalX b1 b2 ^ 2 + normalY b1 b2 ^ 2 = 1 := by
  have hx : 0 < (b2.x - b1.x) ^ 2 + (b2.y - b1.y) ^ 2 := Real.sqrt_pos.mp hd
  have hsq : ballDist b1 b2 ^ 2 = (b2.x - b1.x) ^ 2 + (b2.y - b1.y) ^ 2 :=
    Real.sq_sqrt hx.le
  simp only [normalX, normalY, div_pow]
  rw [div_add_div_same, hsq]
  exact div_self hx.ne'

theorem resolvePair_eq_of_pos (b1 b2 : Ball)
    (hd : 0 < ballDist b1 b2) (hr : ballDist b1 b2 < 2 * b1.radius) :
    resolvePair b1 b2 =
      ({ b1 with
          x := b1.x - (2 * b1.radius - ballDist b1 b2) * normalX b1 b2 * 0.5
          y := b1.y - (2 * b1.radius - ballDist b1 b2) * normalY b1 b2 * 0.5
          vx := b1.vx +
            (normalComp b2 (normalX b1 b2) (normalY b1 b2) -
              normalComp b1 (normalX b1 b2) (normalY b1 b2)) * normalX b1 b2
          vy := b1.vy +
            (normalComp b2 (normalX b1 b2) (normalY b1 b2) -
              normalComp b1 (normalX b1 b2) (normalY b1 b2)) * normalY b1 b2 },
       { b2 with
          x := b2.x + (2 * b1.radius - ballDist b1 b2) * normalX b1 b2 * 0.5
          y := b2.y + (2 * b1.radius - ballDist b1 b2) * normalY b1 b2 * 0.5
          vx := b2.vx +
            (normalComp b1 (normalX b1 b2) (normalY b1 b2) -
              normalComp b2 (normalX b1 b2) (normalY b1 b2)) * normalX b1 b2
          vy := b2.vy +
            (normalComp b1 (normalX b1 b2) (normalY b1 b2) -
              normalComp b2 (normalX b1 b2) (normalY b1 b2)) * normalY b1 b2 }) := by
  have hd' : (0:ℝ) < Real.sqrt ((b2.x - b1.x) ^ 2 + (b2.y - b1.y) ^ 2) := hd
  have hr' : Real.sqrt ((b2.x - b1.x) ^ 2 + (b2.y - b1.y) ^ 2) < 2 * b1.radius := hr
  simp only [resolvePair, if_pos hd', if_pos hr']
  simp only [normalX, normalY, normalComp, ballDist]

/-- C1: one collision-resolution pass over a pair of distinct particles,
neither at rest, with positive center distance below twice the radius,
exactly swaps the two normal velocity components and leaves both
tangential components unchanged. -/
theorem collision_swaps_normal_components (b1 b2 : Ball)
    (h1 : b1.stopped = false) (h2 : b2.stopped = false)
    (hd : 0 < ballDist b1 b2) (hr : ballDist b1 b2 < 2 * b1.radius) :
    (collisionPass [b1, b2]).map
        (fun c => normalComp c (normalX b1 b2) (normalY b1 b2)) =
      [normalComp b2 (normalX b1 b2) (normalY b1 b2),
       normalComp b1 (normalX b1 b2) (normalY b1 b2)] ∧
    (collisionPass [b1, b2]).map
        (fun c => tangComp c (normalX b1 b2) (normalY b1 b2)) =
      [tangComp b1 (normalX b1 b2) (normalY b1 b2),
       tangComp b2 (normalX b1 b2) (normalY b1 b2)] := by
  have hu := normal_unit b1 b2 hd
  refine ⟨?_, ?_⟩ <;>
    rw [collisionPass_two b1 b2 h1 h2, resolvePair_eq_of_pos b1 b2 hd hr] <;>
    simp only [List.map_cons, List.map_nil, normalComp, tangComp,
      List.cons.injEq, and_true] <;>
    refine ⟨?_, ?_⟩
  · linear_combination
      ((b2.vx * normalX b1 b2 + b2.vy * normalY b1 b2) -
        (b1.vx * normalX b1 b2 + b1.vy * normalY b1 b2)) * hu
  · linear_combination
      ((b1.vx * normalX b1 b2 + b1.vy * normalY b1 b2) -
        (b2.vx * normalX b1 b2 + b2.vy * normalY b1 b2)) * hu
  · ring
  · ring

/-- Concrete pair used to instantiate the normal-swap theorem: two unit
radius balls at distance 1. -/
noncomputable def c1ballA : Ball :=
  { x := 0, y := 0, vx := 1, vy := 0, radius := 1, mu := 0.2,
    stopped := false, trajectory := [] }

/-- Second ball of the concrete pair for the normal-swap theorem. -/
noncomputable def c1ballB : Ball :=
  { x := 1, y := 0, vx := 0, vy := 0, radius := 1, mu := 0.2,
    stopped := false, trajectory := [] }

theorem c1_dist_eval : ballDist c1ballA c1ballB = 1 := by
  simp only [ballDist, c1ballA, c1ballB]
  norm_num

/-- Witness for the normal-swap theorem at a concrete input. -/
theorem collision_swaps_normal_components_witness :
    (collisionPass [c1ballA, c1ballB]).map
        (fun c => normalComp c (normalX c1ballA c1ballB) (normalY c1ballA c1ballB)) =
      [normalComp c1ballB (normalX c1ballA c1ballB) (normalY c1ballA c1ballB),
       normalComp c1ballA (normalX c1ballA c1ballB) (normalY c1ballA c1ballB)] ∧
    (collisionPass [c1ballA, c1ballB]).map
        (fun c => tangComp c (normalX c1ballA c1ballB) (normalY c1ballA c1ballB)) =
      [tangComp c1ballA (normalX c1ballA c1ballB) (normalY c1ballA c1ballB),
       tangComp c1ballB (normalX c1ballA c1ballB) (normalY c1ballA c1ballB)] :=
  collision_swaps_normal_components c1ballA c1ballB rfl rfl
    (by rw [c1_dist_eval]; norm_num)
    (by rw [c1_dist_eval]; norm_num [c1ballA])

/-- First ball of a coincident pair: same center as its partner. -/
noncomputable def c5ballA : Ball :=
  { x := 1, y := 1, vx := 0.5, vy := 0, radius := 0.3, mu := 0.2,
    stopped := false, trajectory := [] }

/-- Second ball of the coincident pair. -/
noncomputable def c5ballB : Ball :=
  { x := 1, y := 1, vx := -0.5, vy := 0, radius := 0.3, mu := 0.2,
    stopped := false, trajectory := [] }

/-- Result of the pass on the first coincident ball: velocity swapped
along the fallback normal (1, 0), position untouched. -/
noncomputable def c5resA : Ball :=
  { x := 1, y := 1, vx := -0.5, vy := 0, radius := 0.3, mu := 0.2,
    stopped := false, trajectory := [] }

/-- Result of the pass on the second coincident ball. -/
noncomputable def c5resB : Ball :=
  { x := 1, y := 1, vx := 0.5, vy := 0, radius := 0.3, mu := 0.2,
    stopped := false, trajectory := [] }

/-- C5 counterexample: in the degenerate coincident-centers case the code
swaps velocities along the fallback normal but applies no positional
correction (the push is guarded by distance > 0), so the center distance
after the pass is 0, not twice the radius. -/
theorem degenerate_pair_gets_no_positional_correction :
    collisionPass [c5ballA, c5ballB] = [c5resA, c5resB] ∧
      ballDist c5resA c5resB = 0 ∧
      ¬ (ballDist c5resA c5resB = 2 * c5ballA.radius) := by
  have hrp : resolvePair c5ballA c5ballB = (c5resA, c5resB) := by
    simp only [resolvePair, c5ballA, c5ballB, c5resA, c5resB]
    norm_num
  refine ⟨?_, ?_, ?_⟩
  · simp [collisionPass, collisionPassAux, innerLoop, hrp,
      show c5ballA.stopped = false from rfl,
      show c5ballB.stopped = false from rfl,
      show c5resB.stopped = false from rfl]
  · simp only [ballDist, c5resA, c5resB]
    norm_num
  · simp only [ballDist, c5resA, c5resB, c5ballA]
    norm_num

/-- C5 amended: for a resolved pair with strictly positive center
distance below twice the radius, the positional correction pushes each
ball half the overlap apart along the normal, so the center distance
right after the pass equals exactly twice the radius; in the degenerate
coincident case no positional correction is applied. -/
theorem positional_correction_restores_contact (b1 b2 : Ball)
    (h1 : b1.stopped = false) (h2 : b2.stopped = false)
    (hd : 0 < ballDist b1 b2) (hr : ballDist b1 b2 < 2 * b1.radius) :
    collisionPass [b1, b2] = [(resolvePair b1 b2).1, (resolvePair b1 b2).2] ∧
      ballDist (resolvePair b1 b2).1 (resolvePair b1 b2).2 = 2 * b1.radius := by
  refine ⟨collisionPass_two b1 b2 h1 h2, ?_⟩
  have hx : 0 < (b2.x - b1.x) ^ 2 + (b2.y - b1.y) ^ 2 := Real.sqrt_pos.mp hd
  have hd2 : Real.sqrt ((b2.x - b1.x) ^ 2 + (b2.y - b1.y) ^ 2) ^ 2 =
      (b2.x - b1.x) ^ 2 + (b2.y - b1.y) ^ 2 := Real.sq_sqrt hx.le
  have hdne : Real.sqrt ((b2.x - b1.x) ^ 2 + (b2.y - b1.y) ^ 2) ≠ 0 := ne_of_gt hd
  rw [resolvePair_eq_of_pos b1 b2 hd hr]
  simp only [ballDist]
  have e1 : b2.x +
      (2 * b1.radius - Real.sqrt ((b2.x - b1.x) ^ 2 + (b2.y - b1.y) ^ 2)) *
        normalX b1 b2 * 0.5 -
      (b1.x -
        (2 * b1.radius - Real.sqrt ((b2.x - b1.x) ^ 2 + (b2.y - b1.y) ^ 2)) *
          normalX b1 b2 * 0.5) =
      2 * b1.radius * (b2.x - b1.x) /
        Real.sqrt ((b2.x - b1.x) ^ 2 + (b2.y - b1.y) ^ 2) := by
    simp only [normalX, ballDist]
    field_simp
    ring
  have e2 : b2.y +
      (2 * b1.radius - Real.sqrt ((b2.x - b1.x) ^ 2 + (b2.y - b1.y) ^ 2)) *
        normalY b1 b2 * 0.5 -
      (b1.y -
        (2 * b1.radius - Real.sqrt ((b2.x - b1.x) ^ 2 + (b2.y - b1.y) ^ 2)) *
          normalY b1 b2 * 0.5) =
      2 * b1.radius * (b2.y - b1.y) /
        Real.sqrt ((b2.x - b1.x) ^ 2 + (b2.y - b1.y) ^ 2) := by
    simp only [normalY, ballDist]
    field_simp
    ring
  rw [e1, e2]
  have harg : (2 * b1.radius * (b2.x - b1.x) /
        Real.sqrt ((b2.x - b1.x) ^ 2 + (b2.y - b1.y) ^ 2)) ^ 2 +
      (2 * b1.radius * (b2.y - b1.y) /
        Real.sqrt ((b2.x - b1.x) ^ 2 + (b2.y - b1.y) ^ 2)) ^ 2 =
      (2 * b1.radius) ^ 2 := by
    have expand : (2 * b1.radius * (b2.x - b1.x) /
          Real.sqrt ((b2.x - b1.x) ^ 2 + (b2.y - b1.y) ^ 2)) ^ 2 +
        (2 * b1.radius * (b2.y - b1.y) /
          Real.sqrt ((b2.x - b1.x) ^ 2 + (b2.y - b1.y) ^ 2)) ^ 2 =
        (2 * b1.radius) ^ 2 *
          (((b2.x - b1.x) ^ 2 + (b2.y - b1.y) ^ 2) /
            Real.sqrt ((b2.x - b1.x) ^ 2 + (b2.y - b1.y) ^ 2) ^ 2) := by
      ring
    rw [expand, hd2, div_self hx.ne', mul_one]
  rw [harg, Real.sqrt_sq (by linarith)]

/-- Witness for the amended positional-correction theorem at a concrete
input. -/
theorem positional_correction_restores_contact_witness :
    collisionPass [c1ballA, c1ballB] =
        [(resolvePair c1ballA c1ballB).1, (resolvePair c1ballA c1ballB).2] ∧
      ballDist (resolvePair c1ballA c1ballB).1 (resolvePair c1ballA c1ballB).2 =
        2 * c1ballA.radius :=
  positional_correction_restores_contact c1ballA c1ballB rfl rfl
    (by rw [c1_dist_eval]; norm_num)
    (by rw [c1_dist_eval]; norm_num [c1ballA])

/-- Cue ball of the head-on scenario: radius 0.3 at (4, 3), velocity
(1, 0). -/
noncomputable def c6ballA : Ball :=
  { x := 4, y := 3, vx := 1, vy := 0, radius := 0.3, mu := 0.2,
    stopped := false, trajectory := [(4, 3)] }

/-- Target ball of the head-on scenario as the claim states it: at
(5, 3), one full unit away from the cue ball. -/
noncomputable def c6ballB : Ball :=
  { x := 5, y := 3, vx := 0, vy := 0, radius := 0.3, mu := 0.2,
    stopped := false, trajectory := [(5, 3)] }

/-- C6 counterexample: at the positions the claim gives, the center
distance is 1, which is not below twice the radius 0.3, so the pass
resolves nothing and the velocities stay (1, 0) and (0, 0) instead of
being exchanged. -/
theorem head_on_scenario_pair_not_in_contact :
    (collisionPass [c6ballA, c6ballB]).map Ball.vx = [1, 0] ∧
      (collisionPass [c6ballA, c6ballB]).map Ball.vy = [0, 0] ∧
      ¬ ((collisionPass [c6ballA, c6ballB]).map Ball.vx = [0, 1]) := by
  have hrp : resolvePair c6ballA c6ballB = (c6ballA, c6ballB) := by
    simp only [resolvePair, c6ballA, c6ballB]
    norm_num
  have heq : collisionPass [c6ballA, c6ballB] = [c6ballA, c6ballB] := by
    simp [collisionPass, collisionPassAux, innerLoop, hrp,
      show c6ballA.stopped = false from rfl,
      show c6ballB.stopped = false from rfl]
  refine ⟨?_, ?_, ?_⟩ <;> rw [heq] <;> simp [c6ballA, c6ballB]

/-- Target ball of the amended head-on scenario, moved to (4.5, 3) so
that the pair is actually within contact distance. -/
noncomputable def c6ballTouch : Ball :=
  { x := 4.5, y := 3, vx := 0, vy := 0, radius := 0.3, mu := 0.2,
    stopped := false, trajectory := [(4.5, 3)] }

/-- Result of the amended scenario for the cue ball: velocity fully
exchanged to (0, 0), position nudged back by half the overlap. -/
noncomputable def c6resA : Ball :=
  { x := 3.95, y := 3, vx := 0, vy := 0, radius := 0.3, mu := 0.2,
    stopped := false, trajectory := [(4, 3)] }

/-- Result of the amended scenario for the target ball: velocity (1, 0),
position nudged forward by half the overlap. -/
noncomputable def c6resB : Ball :=
  { x := 4.55, y := 3, vx := 1, vy := 0, radius := 0.3, mu := 0.2,
    stopped := false, trajectory := [(4.5, 3)] }

/-- C6 amended: with the target ball at (4.5, 3), within contact
distance of the cue ball at (4, 3), one pass exchanges the velocities
exactly: (1, 0) and (0, 0) become (0, 0) and (1, 0). -/
theorem head_on_contact_full_exchange :
    collisionPass [c6ballA, c6ballTouch] = [c6resA, c6resB] ∧
      (collisionPass [c6ballA, c6ballTouch]).map Ball.vx = [0, 1] ∧
      (collisionPass [c6ballA, c6ballTouch]).map Ball.vy = [0, 0] := by
  have hs2 : Real.sqrt (((4.5:ℝ) - 4) ^ 2 + ((3:ℝ) - 3) ^ 2) = 0.5 :=
    sqrt_eval _ _ (by norm_num) (by norm_num)
  have hrp : resolvePair c6ballA c6ballTouch = (c6resA, c6resB) := by
    simp only [resolvePair, c6ballA, c6ballTouch, c6resA, c6resB, hs2]
    norm_num
  have heq : collisionPass [c6ballA, c6ballTouch] = [c6resA, c6resB] := by
    simp [collisionPass, collisionPassAux, innerLoop, hrp,
      show c6ballA.stopped = false from rfl,
      show c6ballTouch.stopped = false from rfl,
      show c6resB.stopped = false from rfl]
  refine ⟨heq, ?_, ?_⟩ <;> rw [heq] <;> simp [c6resA, c6resB]

theorem innerLoop_get_stopped (rest : List Ball) : ∀ (bi : Ball) (k : ℕ) (b : Ball),
    rest.get? k = some b → b.stopped = true →
    ((innerLoop bi rest).2).get? k = some b := by
  induction rest with
  | nil =>
    intro bi k b hk _
    simp at hk
  | cons bj tl ih =>
    intro bi k b hk hb
    by_cases hj : bj.stopped = true
    · simp only [innerLoop, hj, if_true]
      cases k with
      | zero => simpa using hk
      | succ k =>
        simp only [List.get?_cons_succ] at hk ⊢
        exact ih bi k b hk hb
    · simp only [innerLoop, hj, if_false]
      cases k with
      | zero =>
        simp only [List.get?_cons_zero, Option.some.injEq] at hk
        subst hk
        exact absurd hb hj
      | succ k =>
        simp only [List.get?_cons_succ] at hk ⊢
        exact ih (resolvePair bi bj).1 k b hk hb

theorem collisionPassAux_get_stopped : ∀ (fuel : ℕ) (l : List Ball) (k : ℕ) (b : Ball),
    l.get? k = some b → b.stopped = true →
    (collisionPassAux fuel l).get? k = some b := by
  intro fuel
  induction fuel with
  | zero =>
    intro l k b hk _
    simpa [collisionPassAux] using hk
  | succ fuel ih =>
    intro l k b hk hb
    cases l with
    | nil => simp at hk
    | cons hd tl =>
      by_cases hh : hd.stopped = true
      · simp only [collisionPassAux, hh, if_true]
        cases k with
        | zero => simpa using hk
        | succ k =>
          simp only [List.get?_cons_succ] at hk ⊢
          exact ih tl k b hk hb
      · simp only [collisionPassAux, hh, if_false]
        cases k with
        | zero =>
          simp only [List.get?_cons_zero, Option.some.injEq] at hk
          subst hk
          exact absurd hb hh
        | succ k =>
          simp only [List.get?_cons_succ] at hk ⊢
          exact ih _ k b (innerLoop_get_stopped tl hd k b hk hb) hb

theorem stepBall_stopped_eq (dt w h : ℝ) (b : Ball) (hs : b.stopped = true) :
    stepBall dt w h b = b := by
  simp [stepBall, updatePosition, applyFriction, checkWallCollision, hs]

theorem tableUpdate_get_stopped (dt w h : ℝ) (balls : List Ball) (k : ℕ) (b : Ball)
    (hb : balls.get? k = some b) (hs : b.stopped = true) :
    (tableUpdate dt w h balls).get? k = some b := by
  have hmap : (balls.map (stepBall dt w h)).get? k = some b := by
    rw [List.get?_map, hb]
    simp [stepBall_stopped_eq dt w h b hs]
  rw [tableUpdate, collisionPass]
  exact collisionPassAux_get_stopped _ _ k b hmap hs

/-- C7: a particle whose at-rest flag is set passes through any number of
full steps completely unchanged (same position, velocity, flag and
trajectory), at the same index of the collection. -/
theorem rest_state_idempotent (dt w h : ℝ) (balls : List Ball) (k m : ℕ) (b : Ball)
    (hb : balls.get? k = some b) (hs : b.stopped = true) :
    ((tableUpdate dt w h)^[m] balls).get? k = some b := by
  induction m generalizing balls with
  | zero => simpa using hb
  | succ m ih =>
    rw [Function.iterate_succ_apply]
    exact ih _ (tableUpdate_get_stopped dt w h balls k b hb hs)

/-- Concrete resting ball used to instantiate the rest-state theorem. -/
noncomputable def c7ball : Ball :=
  { x := 5, y := 3, vx := 0, vy := 0, radius := 0.3, mu := 0.2,
    stopped := true, trajectory := [(5, 3)] }

/-- Witness for the rest-state theorem: three full steps leave the
resting ball untouched. -/
theorem rest_state_idempotent_witness :
    ((tableUpdate 0.05 10 6)^[3] [c7ball]).get? 0 = some c7ball :=
  rest_state_idempotent 0.05 10 6 [c7ball] 0 3 c7ball rfl rfl

theorem updatePosition_traj_moving (dt : ℝ) (b : Ball) (hs : b.stopped = false) :
    (updatePosition dt b).trajectory =
      b.trajectory ++ [(b.x + b.vx * dt, b.y + b.vy * dt)] := by
  simp [updatePosition, hs]

theorem applyFriction_traj (dt : ℝ) (b : Ball) :
    (applyFriction dt b).trajectory = b.trajectory := by
  simp only [applyFriction]
  split_ifs <;> rfl

theorem checkWallCollision_traj (w h : ℝ) (b : Ball) :
    (checkWallCollision w h b).trajectory = b.trajectory := by
  simp only [checkWallCollision]
  split_ifs <;> rfl

theorem stepBall_traj_moving (dt w h : ℝ) (b : Ball) (hs : b.stopped = false) :
    (stepBall dt w h b).trajectory =
      b.trajectory ++ [(b.x + b.vx * dt, b.y + b.vy * dt)] := by
  rw [stepBall, checkWallCollision_traj, applyFriction_traj,
    updatePosition_traj_moving dt b hs]

theorem resolvePair_traj_fst (b1 b2 : Ball) :
    (resolvePair b1 b2).1.trajectory = b1.trajectory := by
  simp only [resolvePair]
  split_ifs <;> rfl

theorem resolvePair_traj_snd (b1 b2 : Ball) :
    (resolvePair b1 b2).2.trajectory = b2.trajectory := by
  simp only [resolvePair]
  split_ifs <;> rfl

theorem innerLoop_traj (rest : List Ball) : ∀ bi : Ball,
    (innerLoop bi rest).1.trajectory = bi.trajectory ∧
      (innerLoop bi rest).2.map Ball.trajectory = rest.map Ball.trajectory := by
  induction rest with
  | nil => intro bi; simp [innerLoop]
  | cons bj tl ih =>
    intro bi
    by_cases hj : bj.stopped = true
    · simp only [innerLoop, hj, if_true, List.map_cons]
      exact ⟨(ih bi).1, by rw [(ih bi).2]⟩
    · simp only [innerLoop, hj, Bool.false_eq_true, if_false, List.map_cons]
      refine ⟨?_, ?_⟩
      · rw [(ih (resolvePair bi bj).1).1, resolvePair_traj_fst]
      · rw [(ih (resolvePair bi bj).1).2, resolvePair_traj_snd]

theorem collisionPassAux_traj : ∀ (fuel : ℕ) (l : List Ball),
    (collisionPassAux fuel l).map Ball.trajectory = l.map Ball.trajectory := by
  intro fuel
  induction fuel with
  | zero => intro l; simp [collisionPassAux]
  | succ fuel ih =>
    intro l
    cases l with
    | nil => simp [collisionPassAux]
    | cons hd tl =>
      by_cases hh : hd.stopped = true
      · simp only [collisionPassAux, hh, if_true, List.map_cons, ih]
      · simp only [collisionPassAux, hh, Bool.false_eq_true, if_false, List.map_cons]
        rw [ih, (innerLoop_traj tl hd).1, (innerLoop_traj tl hd).2]

theorem collisionPass_get_traj (l : List Ball) (k : ℕ) :
    ((collisionPass l).get? k).map Ball.trajectory =
      (l.get? k).map Ball.trajectory := by
  have := collisionPassAux_traj l.length l
  rw [collisionPass]
  have h1 := congrArg (fun s => s.get? k) this
  simpa [List.get?_map] using h1

theorem collisionPass_single (b : Ball) : collisionPass [b] = [b] := by
  by_cases hb : b.stopped = true <;>
    simp [collisionPass, collisionPassAux, innerLoop, hb]

/-- Concrete fast ball near the right wall: within one step it integrates
past the wall, records that out-of-table point, and is then clamped back
without the trajectory being touched again. -/
noncomputable def c10ball : Ball :=
  { x := 9.95, y := 3, vx := 2, vy := 0, radius := 0.3, mu := 0.2,
    stopped := false, trajectory := [(9.95, 3)] }

/-- Intermediate state of the concrete fast ball right after position
integration, before friction and containment. -/
noncomputable def c10mid : Ball :=
  { x := 10.05, y := 3, vx := 2, vy := 0, radius := 0.3, mu := 0.2,
    stopped := false, trajectory := [(9.95, 3), (10.05, 3)] }

/-- C10: within one full step a moving ball gets exactly one appended
trajectory point, the position integrated before friction, containment
and collisions run; and concretely a ball clamped by the wall in the
same step ends with a last trajectory entry (10.05, 3) that differs
from its actual position x = 9.7 and lies beyond the table width 10. -/
theorem trajectory_records_integration_only (dt w h : ℝ) (balls : List Ball)
    (k : ℕ) (b : Ball) (hb : balls.get? k = some b) (hs : b.stopped = false) :
    ((tableUpdate dt w h balls).get? k).map Ball.trajectory =
        some (b.trajectory ++ [(b.x + b.vx * dt, b.y + b.vy * dt)]) ∧
      ((tableUpdate 0.05 10 6 [c10ball]).get? 0).map
          (fun c => (c.trajectory.getLast?, c.x)) =
        some (some ((10.05 : ℝ), (3 : ℝ)), (9.7 : ℝ)) ∧
      ¬ ((10.05 : ℝ) = (9.7 : ℝ)) ∧ (10 : ℝ) < (10.05 : ℝ) := by
  have hsp : Real.sqrt ((2:ℝ) ^ 2 + (0:ℝ) ^ 2) = 2 :=
    sqrt_eval _ _ (by norm_num) (by norm_num)
  have hu : updatePosition 0.05 c10ball = c10mid := by
    simp only [updatePosition, c10ball, c10mid, Bool.false_eq_true, if_false]
    norm_num
  have hfx : (applyFriction 0.05 c10mid).x = 10.05 ∧
      (applyFriction 0.05 c10mid).y = 3 ∧
      (applyFriction 0.05 c10mid).radius = 0.3 ∧
      (applyFriction 0.05 c10mid).stopped = false := by
    simp only [applyFriction, c10mid, hsp]
    norm_num
  have hwx : (checkWallCollision 10 6 (applyFriction 0.05 c10mid)).x = 9.7 := by
    obtain ⟨h1, h2, h3, h4⟩ := hfx
    simp only [checkWallCollision, h1, h2, h3, h4, Bool.false_eq_true, if_false]
    norm_num
  have hx9 : (stepBall 0.05 10 6 c10ball).x = 9.7 := by
    rw [stepBall, hu]
    exact hwx
  have htr : (stepBall 0.05 10 6 c10ball).trajectory.getLast? =
      some ((10.05 : ℝ), (3 : ℝ)) := by
    rw [stepBall_traj_moving 0.05 10 6 c10ball rfl, List.getLast?_concat]
    simp only [c10ball]
    norm_num
  refine ⟨?_, ?_, by norm_num, by norm_num⟩
  · rw [tableUpdate, collisionPass_get_traj, List.get?_map, hb]
    simp [stepBall_traj_moving dt w h b hs]
  · rw [tableUpdate, List.map_cons, List.map_nil, collisionPass_single]
    simp only [List.get?_cons_zero, Option.map_some']
    rw [htr, hx9]

/-- Witness for the trajectory theorem at a concrete input. -/
theorem trajectory_records_integration_only_witness :
    ((tableUpdate 0.05 10 6 [c10ball]).get? 0).map Ball.trajectory =
        some (c10ball.trajectory ++
          [(c10ball.x + c10ball.vx * 0.05, c10ball.y + c10ball.vy * 0.05)]) ∧
      ((tableUpdate 0.05 10 6 [c10ball]).get? 0).map
          (fun c => (c.trajectory.getLast?, c.x)) =
        some (some ((10.05 : ℝ), (3 : ℝ)), (9.7 : ℝ)) ∧
      ¬ ((10.05 : ℝ) = (9.7 : ℝ)) ∧ (10 : ℝ) < (10.05 : ℝ) :=
  trajectory_records_integration_only 0.05 10 6 [c10ball] 0 c10ball rfl rfl

theorem elastic_swap_energy (v1x v1y v2x v2y nx ny : ℝ) (h : nx ^ 2 + ny ^ 2 = 1) :
    (v1x + ((v2x * nx + v2y * ny) - (v1x * nx + v1y * ny)) * nx) ^ 2 +
        (v1y + ((v2x * nx + v2y * ny) - (v1x * nx + v1y * ny)) * ny) ^ 2 +
        ((v2x + ((v1x * nx + v1y * ny) - (v2x * nx + v2y * ny)) * nx) ^ 2 +
          (v2y + ((v1x * nx + v1y * ny) - (v2x * nx + v2y * ny)) * ny) ^ 2) =
      v1x ^ 2 + v1y ^ 2 + (v2x ^ 2 + v2y ^ 2) := by
  linear_combination
    (2 * ((v2x * nx + v2y * ny) - (v1x * nx + v1y * ny)) ^ 2) * h

theorem resolvePair_energy (b1 b2 : Ball) :
    ballEnergy (resolvePair b1 b2).1 + ballEnergy (resolvePair b1 b2).2 =
      ballEnergy b1 + ballEnergy b2 := by
  simp only [resolvePair]
  split_ifs with hc hp
  · have hS : 0 < (b2.x - b1.x) ^ 2 + (b2.y - b1.y) ^ 2 := Real.sqrt_pos.mp hp
    have h1 : ((b2.x - b1.x) / Real.sqrt ((b2.x - b1.x) ^ 2 + (b2.y - b1.y) ^ 2)) ^ 2 +
        ((b2.y - b1.y) / Real.sqrt ((b2.x - b1.x) ^ 2 + (b2.y - b1.y) ^ 2)) ^ 2 = 1 := by
      rw [div_pow, div_pow, div_add_div_same, Real.sq_sqrt hS.le]
      exact div_self hS.ne'
    simp only [ballEnergy]
    exact elastic_swap_energy b1.vx b1.vy b2.vx b2.vy _ _ h1
  · simp only [ballEnergy]
    exact elastic_swap_energy b1.vx b1.vy b2.vx b2.vy 1 0 (by norm_num)
  · rfl

theorem innerLoop_energy (rest : List Ball) : ∀ bi : Ball,
    ballEnergy (innerLoop bi rest).1 + energy (innerLoop bi rest).2 =
      ballEnergy bi + energy rest := by
  induction rest with
  | nil => intro bi; simp [innerLoop, energy]
  | cons bj tl ih =>
    intro bi
    by_cases hj : bj.stopped = true
    · simp only [innerLoop, hj, if_true, energy, List.map_cons, List.sum_cons]
      have h1 := ih bi
      simp only [energy] at h1
      linarith
    · simp only [innerLoop, hj, Bool.false_eq_true, if_false, energy,
        List.map_cons, List.sum_cons]
      have h1 := ih (resolvePair bi bj).1
      simp only [energy] at h1
      have h2 := resolvePair_energy bi bj
      linarith

theorem collisionPassAux_energy : ∀ (fuel : ℕ) (l : List Ball),
    energy (collisionPassAux fuel l) = energy l := by
  intro fuel
  induction fuel with
  | zero => intro l; rfl
  | succ fuel ih =>
    intro l
    cases l with
    | nil => rfl
    | cons hd tl =>
      by_cases hh : hd.stopped = true
      · simp only [collisionPassAux, hh, if_true, energy, List.map_cons, List.sum_cons]
        have h1 := ih tl
        simp only [energy] at h1
        linarith
      · simp only [collisionPassAux, hh, Bool.false_eq_true, if_false, energy,
          List.map_cons, List.sum_cons]
        have h1 := ih (innerLoop hd tl).2
        simp only [energy] at h1
        have h2 := innerLoop_energy tl hd
        simp only [energy] at h2
        linarith

theorem updatePosition_energy (dt : ℝ) (b : Ball) :
    ballEnergy (updatePosition dt b) = ballEnergy b := by
  simp only [updatePosition]
  split_ifs <;> rfl

theorem updatePosition_mu (dt : ℝ) (b : Ball) :
    (updatePosition dt b).mu = b.mu := by
  simp only [updatePosition]
  split_ifs <;> rfl

theorem checkWallCollision_energy (w h : ℝ) (b : Ball) :
    ballEnergy (checkWallCollision w h b) = ballEnergy b := by
  simp only [checkWallCollision, ballEnergy]
  split_ifs <;> simp [neg_sq, sq_abs]

theorem applyFriction_energy_le (dt : ℝ) (b : Ball) (hdt : 0 ≤ dt) (hmu : 0 ≤ b.mu) :
    ballEnergy (applyFriction dt b) ≤ ballEnergy b := by
  simp only [applyFriction]
  split_ifs with h1 h2
  · exact le_rfl
  · simp only [ballEnergy]
    norm_num
    positivity
  · simp only [ballEnergy]
    have hf : Real.exp (-b.mu * dt) ≤ 1 := by
      rw [← Real.exp_zero]
      exact Real.exp_le_exp.mpr (by nlinarith)
    have hf0 : 0 ≤ Real.exp (-b.mu * dt) := (Real.exp_pos _).le
    have hff : Real.exp (-b.mu * dt) ^ 2 ≤ 1 := by nlinarith
    have e1 : (b.vx * Real.exp (-b.mu * dt)) ^ 2 =
        b.vx ^ 2 * Real.exp (-b.mu * dt) ^ 2 := by ring
    have e2 : (b.vy * Real.exp (-b.mu * dt)) ^ 2 =
        b.vy ^ 2 * Real.exp (-b.mu * dt) ^ 2 := by ring
    rw [e1, e2]
    have g1 : b.vx ^ 2 * Real.exp (-b.mu * dt) ^ 2 ≤ b.vx ^ 2 := by
      nlinarith [sq_nonneg b.vx]
    have g2 : b.vy ^ 2 * Real.exp (-b.mu * dt) ^ 2 ≤ b.vy ^ 2 := by
      nlinarith [sq_nonneg b.vy]
    linarith

theorem stepBall_energy_le (dt w h : ℝ) (b : Ball) (hdt : 0 ≤ dt) (hmu : 0 ≤ b.mu) :
    ballEnergy (stepBall dt w h b) ≤ ballEnergy b := by
  rw [stepBall, checkWallCollision_energy]
  have hmu2 : 0 ≤ (updatePosition dt b).mu := by
    rw [updatePosition_mu]
    exact hmu
  calc ballEnergy (applyFriction dt (updatePosition dt b)) ≤
        ballEnergy (updatePosition dt b) := applyFriction_energy_le dt _ hdt hmu2
    _ = ballEnergy b := updatePosition_energy dt b

theorem energy_map_le (dt w h : ℝ) : ∀ balls : List Ball,
    (∀ b ∈ balls, 0 ≤ b.mu) → 0 ≤ dt →
    energy (balls.map (stepBall dt w h)) ≤ energy balls := by
  intro balls
  induction balls with
  | nil =>
    intro _ _
    simp [energy]
  | cons hd tl ih =>
    intro hmu hdt
    simp only [List.map_cons, energy, List.sum_cons]
    have h1 := stepBall_energy_le dt w h hd hdt (hmu hd (List.mem_cons_self hd tl))
    have h2 := ih (fun b hb => hmu b (List.mem_cons_of_mem hd hb)) hdt
    simp only [energy] at h2
    linarith

/-- C9: one full step never increases the total kinetic-energy proxy,
the sum over all balls of vx squared plus vy squared, for any dt at
least 0 and the nonnegative friction coefficients the data model
prescribes: friction scales or zeroes velocities, wall containment only
flips signs, the positional correction leaves velocities alone, and each
pairwise swap preserves the pair's energy sum. -/
theorem step_never_increases_energy (dt w h : ℝ) (balls : List Ball)
    (hdt : 0 ≤ dt) (hmu : ∀ b ∈ balls, 0 ≤ b.mu) :
    energy (tableUpdate dt w h balls) ≤ energy balls := by
  rw [tableUpdate, collisionPass, collisionPassAux_energy]
  exact energy_map_le dt w h balls hmu hdt

/-- Witness for the energy theorem at a concrete input. -/
theorem step_never_increases_energy_witness :
    energy (tableUpdate 0.05 10 6 [c10ball]) ≤ energy [c10ball] :=
  step_never_increases_energy 0.05 10 6 [c10ball] (by norm_num)
    (by
      intro b hb
      rw [List.mem_singleton] at hb
      subst hb
      norm_num [c10ball])

/-- Well-formedness of one ball as the data model prescribes it: the
friction coefficient is at least the global lower bound, and a ball at
rest has exactly zero velocity. -/
def goodBall (μ0 : ℝ) (b : Ball) : Prop :=
  μ0 ≤ b.mu ∧ (b.stopped = true → b.vx = 0 ∧ b.vy = 0)

theorem resolvePair_mu_fst (b1 b2 : Ball) : (resolvePair b1 b2).1.mu = b1.mu := by
  simp only [resolvePair]
  split_ifs <;> rfl

theorem resolvePair_mu_snd (b1 b2 : Ball) : (resolvePair b1 b2).2.mu = b2.mu := by
  simp only [resolvePair]
  split_ifs <;> rfl

theorem resolvePair_good (μ0 : ℝ) (b1 b2 : Ball)
    (h1 : b1.stopped = false) (h2 : b2.stopped = false)
    (g1 : goodBall μ0 b1) (g2 : goodBall μ0 b2) :
    goodBall μ0 (resolvePair b1 b2).1 ∧ goodBall μ0 (resolvePair b1 b2).2 := by
  refine ⟨⟨?_, ?_⟩, ⟨?_, ?_⟩⟩
  · rw [resolvePair_mu_fst]
    exact g1.1
  · intro hst
    rw [resolvePair_stopped_fst, h1] at hst
    simp at hst
  · rw [resolvePair_mu_snd]
    exact g2.1
  · intro hst
    rw [resolvePair_stopped_snd, h2] at hst
    simp at hst

theorem innerLoop_good (μ0 : ℝ) (rest : List Ball) : ∀ bi : Ball,
    bi.stopped = false → goodBall μ0 bi → (∀ b ∈ rest, goodBall μ0 b) →
    ((innerLoop bi rest).1.stopped = false ∧ goodBall μ0 (innerLoop bi rest).1) ∧
      ∀ b ∈ (innerLoop bi rest).2, goodBall μ0 b := by
  induction rest with
  | nil =>
    intro bi hs hg _
    refine ⟨⟨hs, hg⟩, ?_⟩
    simp [innerLoop]
  | cons bj tl ih =>
    intro bi hs hg hrest
    by_cases hj : bj.stopped = true
    · simp only [innerLoop, hj, if_true]
      obtain ⟨ha, hb⟩ := ih bi hs hg (fun b hb => hrest b (List.mem_cons_of_mem _ hb))
      refine ⟨ha, ?_⟩
      intro b hbm
      rcases List.mem_cons.mp hbm with rfl | hb2
      · exact hrest b (List.mem_cons_self b tl)
      · exact hb b hb2
    · have hj' : bj.stopped = false := by simpa using hj
      simp only [innerLoop, hj, Bool.false_eq_true, if_false]
      have hq := resolvePair_good μ0 bi bj hs hj' hg
        (hrest bj (List.mem_cons_self bj tl))
      have hqs : (resolvePair bi bj).1.stopped = false := by
        rw [resolvePair_stopped_fst]
        exact hs
      obtain ⟨ha, hb⟩ := ih (resolvePair bi bj).1 hqs hq.1
        (fun b hb => hrest b (List.mem_cons_of_mem _ hb))
      refine ⟨ha, ?_⟩
      intro b hbm
      rcases List.mem_cons.mp hbm with rfl | hb2
      · exact hq.2
      · exact hb b hb2

theorem collisionPassAux_good (μ0 : ℝ) : ∀ (fuel : ℕ) (l : List Ball),
    (∀ b ∈ l, goodBall μ0 b) → ∀ b ∈ collisionPassAux fuel l, goodBall μ0 b := by
  intro fuel
  induction fuel with
  | zero =>
    intro l hl
    simpa [collisionPassAux] using hl
  | succ fuel ih =>
    intro l hl
    cases l with
    | nil =>
      intro b hb
      simp [collisionPassAux] at hb
    | cons hd tl =>
      by_cases hh : hd.stopped = true
      · simp only [collisionPassAux, hh, if_true]
        intro b hb
        rcases List.mem_cons.mp hb with rfl | hb2
        · exact hl b (List.mem_cons_self b tl)
        · exact ih tl (fun c hc => hl c (List.mem_cons_of_mem _ hc)) b hb2
      · have hh' : hd.stopped = false := by simpa using hh
        simp only [collisionPassAux, hh, Bool.false_eq_true, if_false]
        obtain ⟨⟨hs1, hg1⟩, h2⟩ := innerLoop_good μ0 tl hd hh'
          (hl hd (List.mem_cons_self hd tl))
          (fun c hc => hl c (List.mem_cons_of_mem _ hc))
        intro b hb
        rcases List.mem_cons.mp hb with rfl | hb2
        · exact hg1
        · exact ih _ h2 b hb2

theorem applyFriction_mu (dt : ℝ) (b : Ball) : (applyFriction dt b).mu = b.mu := by
  simp only [applyFriction]
  split_ifs <;> rfl

theorem checkWallCollision_mu (w h : ℝ) (b : Ball) :
    (checkWallCollision w h b).mu = b.mu := by
  simp only [checkWallCollision]
  split_ifs <;> rfl

theorem stepBall_mu (dt w h : ℝ) (b : Ball) : (stepBall dt w h b).mu = b.mu := by
  rw [stepBall, checkWallCollision_mu, applyFriction_mu, updatePosition_mu]

theorem applyFriction_rest (dt : ℝ) (b : Ball) (hs : b.stopped = false) :
    (applyFriction dt b).stopped = true →
    (applyFriction dt b).vx = 0 ∧ (applyFriction dt b).vy = 0 := by
  simp only [applyFriction, hs, Bool.false_eq_true, if_false]
  split_ifs with h2
  · intro _
    exact ⟨rfl, rfl⟩
  · intro hst
    simp [hs] at hst

theorem checkWallCollision_stopped_flag (w h : ℝ) (b : Ball) :
    (checkWallCollision w h b).stopped = b.stopped := by
  simp only [checkWallCollision]
  split_ifs <;> rfl

theorem checkWallCollision_stopped_eq (w h : ℝ) (b : Ball) (hs : b.stopped = true) :
    checkWallCollision w h b = b := by
  simp [checkWallCollision, hs]

theorem checkWallCollision_rest (w h : ℝ) (b : Ball)
    (hP : b.stopped = true → b.vx = 0 ∧ b.vy = 0) :
    (checkWallCollision w h b).stopped = true →
    (checkWallCollision w h b).vx = 0 ∧ (checkWallCollision w h b).vy = 0 := by
  by_cases hs : b.stopped = true
  · rw [checkWallCollision_stopped_eq w h b hs]
    exact hP
  · intro hst
    rw [checkWallCollision_stopped_flag] at hst
    exact absurd hst hs

theorem stepBall_rest (dt w h : ℝ) (b : Ball)
    (hP : b.stopped = true → b.vx = 0 ∧ b.vy = 0) :
    (stepBall dt w h b).stopped = true →
    (stepBall dt w h b).vx = 0 ∧ (stepBall dt w h b).vy = 0 := by
  by_cases hs : b.stopped = true
  · rw [stepBall_stopped_eq dt w h b hs]
    exact hP
  · have hs' : b.stopped = false := by simpa using hs
    have hsu : (updatePosition dt b).stopped = false := by
      simp [updatePosition, hs']
    rw [stepBall]
    exact checkWallCollision_rest w h _ (applyFriction_rest dt _ hsu)

theorem stepBall_good (dt w h μ0 : ℝ) (b : Ball) (hg : goodBall μ0 b) :
    goodBall μ0 (stepBall dt w h b) := by
  refine ⟨?_, stepBall_rest dt w h b hg.2⟩
  rw [stepBall_mu]
  exact hg.1

theorem tableUpdate_good (dt w h μ0 : ℝ) (balls : List Ball)
    (hl : ∀ b ∈ balls, goodBall μ0 b) :
    ∀ b ∈ tableUpdate dt w h balls, goodBall μ0 b := by
  rw [tableUpdate, collisionPass]
  apply collisionPassAux_good
  intro b hb
  rw [List.mem_map] at hb
  obtain ⟨a, ha, rfl⟩ := hb
  exact stepBall_good dt w h μ0 a (hl a ha)

theorem ballEnergy_nonneg (b : Ball) : 0 ≤ ballEnergy b := by
  simp only [ballEnergy]
  positivity

theorem applyFriction_energy_decay (dt μ0 : ℝ) (b : Ball) (hdt : 0 ≤ dt)
    (hμb : μ0 ≤ b.mu) (hs : b.stopped = false) :
    ballEnergy (applyFriction dt b) ≤ Real.exp (-(2 * μ0) * dt) * ballEnergy b := by
  simp only [applyFriction, hs, Bool.false_eq_true, if_false]
  split_ifs with h2
  · simp only [ballEnergy]
    norm_num
    positivity
  · simp only [ballEnergy]
    have hexp : Real.exp (-b.mu * dt) ^ 2 = Real.exp (-(2 * b.mu) * dt) := by
      rw [sq, ← Real.exp_add]
      ring_nf
    have hmono : Real.exp (-(2 * b.mu) * dt) ≤ Real.exp (-(2 * μ0) * dt) :=
      Real.exp_le_exp.mpr (by nlinarith)
    have e1 : (b.vx * Real.exp (-b.mu * dt)) ^ 2 + (b.vy * Real.exp (-b.mu * dt)) ^ 2 =
        Real.exp (-b.mu * dt) ^ 2 * (b.vx ^ 2 + b.vy ^ 2) := by ring
    rw [e1, hexp]
    have hE : 0 ≤ b.vx ^ 2 + b.vy ^ 2 := by positivity
    exact mul_le_mul_of_nonneg_right hmono hE

theorem stepBall_energy_decay (dt w h μ0 : ℝ) (b : Ball) (hdt : 0 ≤ dt)
    (hg : goodBall μ0 b) :
    ballEnergy (stepBall dt w h b) ≤ Real.exp (-(2 * μ0) * dt) * ballEnergy b := by
  by_cases hs : b.stopped = true
  · rw [stepBall_stopped_eq dt w h b hs]
    obtain ⟨h1, h2⟩ := hg.2 hs
    simp [ballEnergy, h1, h2]
  · have hs' : b.stopped = false := by simpa using hs
    rw [stepBall, checkWallCollision_energy]
    have hsu : (updatePosition dt b).stopped = false := by
      simp [updatePosition, hs']
    have h1 := applyFriction_energy_decay dt μ0 (updatePosition dt b) hdt
      (by rw [updatePosition_mu]; exact hg.1) hsu
    calc ballEnergy (applyFriction dt (updatePosition dt b)) ≤
          Real.exp (-(2 * μ0) * dt) * ballEnergy (updatePosition dt b) := h1
      _ = Real.exp (-(2 * μ0) * dt) * ballEnergy b := by rw [updatePosition_energy]

theorem energy_map_decay (dt w h μ0 : ℝ) (hdt : 0 ≤ dt) : ∀ balls : List Ball,
    (∀ b ∈ balls, goodBall μ0 b) →
    energy (balls.map (stepBall dt w h)) ≤ Real.exp (-(2 * μ0) * dt) * energy balls := by
  intro balls
  induction balls with
  | nil =>
    intro _
    simp [energy]
  | cons hd tl ih =>
    intro hinv
    simp only [List.map_cons, energy, List.sum_cons]
    have h1 := stepBall_energy_decay dt w h μ0 hd hdt (hinv hd (List.mem_cons_self hd tl))
    have h2 := ih (fun b hb => hinv b (List.mem_cons_of_mem _ hb))
    simp only [energy] at h2
    have hc : Real.exp (-(2 * μ0) * dt) * (ballEnergy hd + (tl.map ballEnergy).sum) =
        Real.exp (-(2 * μ0) * dt) * ballEnergy hd +
          Real.exp (-(2 * μ0) * dt) * (tl.map ballEnergy).sum := by ring
    linarith

theorem tableUpdate_energy_decay (dt w h μ0 : ℝ) (balls : List Ball) (hdt : 0 ≤ dt)
    (hl : ∀ b ∈ balls, goodBall μ0 b) :
    energy (tableUpdate dt w h balls) ≤ Real.exp (-(2 * μ0) * dt) * energy balls := by
  rw [tableUpdate, collisionPass, collisionPassAux_energy]
  exact energy_map_decay dt w h μ0 hdt balls hl

theorem iterate_good_and_decay (w h μ0 : ℝ) (balls : List Ball)
    (hl : ∀ b ∈ balls, goodBall μ0 b) : ∀ k : ℕ,
    (∀ b ∈ (tableUpdate 0.05 w h)^[k] balls, goodBall μ0 b) ∧
      energy ((tableUpdate 0.05 w h)^[k] balls) ≤
        Real.exp (-(2 * μ0) * 0.05) ^ k * energy balls := by
  intro k
  induction k with
  | zero =>
    refine ⟨by simpa using hl, ?_⟩
    simp
  | succ k ih =>
    obtain ⟨hg, he⟩ := ih
    constructor
    · rw [Function.iterate_succ_apply']
      exact tableUpdate_good 0.05 w h μ0 _ hg
    · rw [Function.iterate_succ_apply']
      have h1 := tableUpdate_energy_decay 0.05 w h μ0 _ (by norm_num) hg
      have h2 : Real.exp (-(2 * μ0) * 0.05) *
            energy ((tableUpdate 0.05 w h)^[k] balls) ≤
          Real.exp (-(2 * μ0) * 0.05) *
            (Real.exp (-(2 * μ0) * 0.05) ^ k * energy balls) :=
        mul_le_mul_of_nonneg_left he (Real.exp_pos _).le
      have h3 : Real.exp (-(2 * μ0) * 0.05) *
            (Real.exp (-(2 * μ0) * 0.05) ^ k * energy balls) =
          Real.exp (-(2 * μ0) * 0.05) ^ (k + 1) * energy balls := by ring
      linarith

theorem collisionPassAux_all_stopped : ∀ (fuel : ℕ) (l : List Ball),
    (∀ b ∈ l, b.stopped = true) → collisionPassAux fuel l = l := by
  intro fuel
  induction fuel with
  | zero => intro l _; rfl
  | succ fuel ih =>
    intro l hl
    cases l with
    | nil => rfl
    | cons hd tl =>
      have hh : hd.stopped = true := hl hd (List.mem_cons_self hd tl)
      simp only [collisionPassAux, hh, if_true]
      rw [ih tl (fun b hb => hl b (List.mem_cons_of_mem _ hb))]

theorem allStopped_iff (l : List Ball) :
    allStopped l = true ↔ ∀ b ∈ l, b.stopped = true := by
  simp [allStopped, List.all_eq_true]

theorem ballEnergy_le_energy (balls : List Ball) (b : Ball) (hb : b ∈ balls) :
    ballEnergy b ≤ energy balls := by
  apply List.single_le_sum
  · intro x hx
    rw [List.mem_map] at hx
    obtain ⟨a, _, rfl⟩ := hx
    exact ballEnergy_nonneg a
  · exact List.mem_map_of_mem ballEnergy hb

theorem small_energy_stops (dt w h : ℝ) (balls : List Ball)
    (hsmall : ∀ b ∈ balls, ballEnergy b < 0.0004) :
    allStopped (tableUpdate dt w h balls) = true := by
  have hmap : ∀ b ∈ balls.map (stepBall dt w h), b.stopped = true := by
    intro b hb
    rw [List.mem_map] at hb
    obtain ⟨a, ha, rfl⟩ := hb
    by_cases hs : a.stopped = true
    · rw [stepBall_stopped_eq dt w h a hs]
      exact hs
    · have hs' : a.stopped = false := by simpa using hs
      have hsu : (updatePosition dt a).stopped = false := by
        simp [updatePosition, hs']
      have hE : ballEnergy (updatePosition dt a) < 0.0004 := by
        rw [updatePosition_energy]
        exact hsmall a ha
      have hsqrt : Real.sqrt ((updatePosition dt a).vx ^ 2 +
          (updatePosition dt a).vy ^ 2) < 0.02 := by
        refine (Real.sqrt_lt' (by norm_num)).mpr ?_
        have h004 : ((0.02:ℝ)) ^ 2 = 0.0004 := by norm_num
        rw [h004]
        exact hE
      have hfr : (applyFriction dt (updatePosition dt a)).stopped = true := by
        simp only [applyFriction, hsu, Bool.false_eq_true, if_false]
        rw [if_pos hsqrt]
      have hwc : checkWallCollision w h (applyFriction dt (updatePosition dt a)) =
          applyFriction dt (updatePosition dt a) :=
        checkWallCollision_stopped_eq w h _ hfr
      rw [stepBall, hwc]
      exact hfr
  rw [tableUpdate, collisionPass,
    collisionPassAux_all_stopped _ _ hmap, allStopped_iff]
  exact hmap

theorem runStep_not_running (w h : ℝ) (s : DriverState) (hs : s.running = false) :
    runStep w h s = s := by
  simp [runStep, hs]

theorem driver_iterate_balls (w h : ℝ) (balls : List Ball) : ∀ k : ℕ,
    ((runStep w h)^[k] (initDriver balls)).running = false ∨
      (((runStep w h)^[k] (initDriver balls)).running = true ∧
        ((runStep w h)^[k] (initDriver balls)).balls = (tableUpdate 0.05 w h)^[k] balls ∧
        (k = 0 ∨ allStopped ((tableUpdate 0.05 w h)^[k] balls) = false)) := by
  intro k
  induction k with
  | zero => exact Or.inr ⟨rfl, rfl, Or.inl rfl⟩
  | succ k ih =>
    rcases ih with hf | ⟨hr, hbs, _⟩
    · left
      rw [Function.iterate_succ_apply', runStep_not_running w h _ hf]
      exact hf
    · by_cases ha : allStopped (tableUpdate 0.05 w h
          (((runStep w h)^[k] (initDriver balls)).balls)) = true
      · left
        rw [Function.iterate_succ_apply']
        simp [runStep, hr, ha]
      · right
        refine ⟨?_, ?_, Or.inr ?_⟩
        · rw [Function.iterate_succ_apply']
          simp [runStep, hr, ha]
        · rw [Function.iterate_succ_apply']
          simp only [runStep, hr, if_true]
          rw [hbs]
          exact (Function.iterate_succ_apply' (tableUpdate 0.05 w h) k balls).symm
        · rw [hbs] at ha
          rw [Function.iterate_succ_apply' (tableUpdate 0.05 w h) k balls]
          simpa using ha

/-- C3: with every friction coefficient bounded below by a positive
constant and well-formed rest flags, iterating the full step with the
fixed dt of 0.05 reaches, in a bounded number of steps, a state where
every rest flag is set, and the driver is then in its terminal stopped
state: the total energy decays geometrically, so every speed eventually
falls below the 0.02 stop threshold and friction zeroes it. -/
theorem all_balls_reach_rest (w h μ0 : ℝ) (balls : List Ball) (hμ : 0 < μ0)
    (hinv : ∀ b ∈ balls, goodBall μ0 b) :
    ∃ N, allStopped ((tableUpdate 0.05 w h)^[N] balls) = true ∧
      ((runStep w h)^[N] (initDriver balls)).running = false := by
  have hc0 : (0:ℝ) ≤ Real.exp (-(2 * μ0) * 0.05) := (Real.exp_pos _).le
  have hc1 : Real.exp (-(2 * μ0) * 0.05) < 1 := by
    have hneg : -(2 * μ0) * 0.05 < 0 := by nlinarith
    have h2 := Real.exp_lt_exp.mpr hneg
    rwa [Real.exp_zero] at h2
  have hE0 : 0 ≤ energy balls := by
    apply List.sum_nonneg
    intro x hx
    rw [List.mem_map] at hx
    obtain ⟨a, _, rfl⟩ := hx
    exact ballEnergy_nonneg a
  obtain ⟨n, hn⟩ := exists_pow_lt_of_lt_one
    (show (0:ℝ) < 0.0004 / (energy balls + 1) by positivity) hc1
  have hkey : Real.exp (-(2 * μ0) * 0.05) ^ n * energy balls < 0.0004 := by
    have h1 : Real.exp (-(2 * μ0) * 0.05) ^ n * energy balls ≤
        0.0004 / (energy balls + 1) * energy balls :=
      mul_le_mul_of_nonneg_right hn.le hE0
    have h2 : 0.0004 / (energy balls + 1) * energy balls < 0.0004 := by
      rw [div_mul_eq_mul_div, div_lt_iff (by linarith)]
      nlinarith
    linarith
  obtain ⟨hgood, hdecay⟩ := iterate_good_and_decay w h μ0 balls hinv n
  have hsmall : ∀ b ∈ (tableUpdate 0.05 w h)^[n] balls, ballEnergy b < 0.0004 := by
    intro b hb
    calc ballEnergy b ≤ energy ((tableUpdate 0.05 w h)^[n] balls) :=
          ballEnergy_le_energy _ b hb
      _ ≤ Real.exp (-(2 * μ0) * 0.05) ^ n * energy balls := hdecay
      _ < 0.0004 := hkey
  have hstopN : allStopped ((tableUpdate 0.05 w h)^[n + 1] balls) = true := by
    rw [Function.iterate_succ_apply']
    exact small_energy_stops 0.05 w h _ hsmall
  refine ⟨n + 1, hstopN, ?_⟩
  rcases driver_iterate_balls w h balls (n + 1) with hf | ⟨_, _, hz⟩
  · exact hf
  · rcases hz with hz0 | hz
    · exact absurd hz0 (Nat.succ_ne_zero n)
    · rw [hstopN] at hz
      simp at hz

/-- Concrete moving ball used to instantiate the termination theorem. -/
noncomputable def c3ball : Ball :=
  { x := 5, y := 3, vx := 0.5, vy := 0, radius := 0.3, mu := 0.2,
    stopped := false, trajectory := [(5, 3)] }

/-- Witness for the termination theorem at a concrete input. -/
theorem all_balls_reach_rest_witness :
    ∃ N, allStopped ((tableUpdate 0.05 10 6)^[N] [c3ball]) = true ∧
      ((runStep 10 6)^[N] (initDriver [c3ball])).running = false :=
  all_balls_reach_rest 10 6 0.2 [c3ball] (by norm_num)
    (by
      intro b hb
      rw [List.mem_singleton] at hb
      subst hb
      refine ⟨by norm_num [c3ball], ?_⟩
      intro hcontra
      simp [c3ball] at hcontra)
